import Mathlib

/-!
Verification of the GEFO real-time fleet-telemetry broadcast core.

Shallow embedding of:
  * `backend/app/core/websocket_manager.py` (`ConnectionManager`, `ClientInfo`),
  * `backend/app/services/vessel_tracker.py` (`VesselTracker._process_ais_message`,
    `VesselTracker._advance_vessel`, `VesselTracker._broadcast_loop`).

Modelling conventions:
  * Python `dict` (insertion-ordered, unique keys) is modelled as an association
    list with `dictGet` / `dictSet` (replace first occurrence in place, else
    append) / `dictPop` mirroring `d.get(k)`, `d[k] = v`, `d.pop(k, None)`.
  * Python `set` is modelled as `Finset`.
  * Floats are modelled as `ℚ` (every claim here is about exact branch
    structure, not rounding).
  * `time.time()` and random draws are passed in as explicit parameters.
  * The async lock makes every registry operation atomic, so operations are
    modelled as sequential state transformers.
-/

namespace GEFO

section Dict

variable {κ α : Type} [DecidableEq κ]

/-- Dictionary lookup `d.get(k)` on an association list (first match wins). -/
def dictGet : List (κ × α) → κ → Option α
  | [], _ => none
  | p :: rest, k => if p.1 = k then some p.2 else dictGet rest k

/-- Dictionary assignment `d[k] = v`: replace the (unique) existing entry in
place, otherwise append at the end, as a Python dict does. -/
def dictSet : List (κ × α) → κ → α → List (κ × α)
  | [], k, v => [(k, v)]
  | p :: rest, k, v => if p.1 = k then (k, v) :: rest else p :: dictSet rest k v

/-- Dictionary removal `d.pop(k, None)` (the removed value is recovered with
`dictGet` beforehand where the code needs it). -/
def dictPop (l : List (κ × α)) (k : κ) : List (κ × α) :=
  l.filter (fun p => decide (p.1 ≠ k))

/-- In-place mutation of the value stored under one key (object aliasing in
Python: mutating the looked-up object mutates the dict entry). -/
def mapAtKey (f : α → α) (l : List (κ × α)) (k : κ) : List (κ × α) :=
  l.map (fun p => if p.1 = k then (p.1, f p.2) else p)

/-- Key list of an association dictionary. -/
def keys (l : List (κ × α)) : List κ := l.map Prod.fst

end Dict

/-! Embedding of `backend/app/core/websocket_manager.py`.

Client ids: the only caller (`/ws/live` in `backend/app/api/websocket.py`)
always invokes `connect(ws)` with `client_id=None`, so ids are the generated
strings `f"client-{self._counter}"` with a strictly increasing counter.  The
injective renaming `client-<n> ↦ n` is applied and ids are modelled as `ℕ`. -/

namespace ConnectionManager

/-- `ClientInfo` dataclass (lines 28-36): the `websocket` handle itself is not
part of the registry state; its behaviour enters through `SendOutcome` below.
`connected_at` is dropped: no claim observes it. -/
structure ClientInfo where
  channels : Finset String
  messagesSent : ℕ
deriving DecidableEq

/-- `ConnectionManager.__init__`: `_clients` dict, `_channel_subs` defaultdict
of sets, monotone `_counter`.  The lock serialises the operations. -/
structure MState where
  clients : List (ℕ × ClientInfo)
  subs : String → Finset ℕ
  counter : ℕ

/-- Outcome of one `_send(info, data)` attempt, determined by the transport:
`ok` (socket CONNECTED, `send_json` succeeds), `closed` (socket not in the
CONNECTED state: `_send` returns False without side effect), `raises`
(`send_json` raises: `_send` calls `self.disconnect`). -/
inductive SendOutcome
  | ok
  | closed
  | raises
deriving DecidableEq

def initState : MState := ⟨[], fun _ => ∅, 0⟩

def ALL_CHANNELS : List String :=
  ["trade", "ports", "alerts", "geopolitical", "vessels", "system"]

/-- Registration part of `connect` (lines 56-61): fresh id from the counter,
client stored with channels `{"system"}`, id added to `_channel_subs["system"]`. -/
def connectReg (st : MState) : MState × ℕ :=
  let cid := st.counter + 1
  ({ clients := dictSet st.clients cid ⟨{"system"}, 0⟩,
     subs := fun ch => if ch = "system" then insert cid (st.subs ch) else st.subs ch,
     counter := st.counter + 1 }, cid)

/-- `disconnect` (lines 73-79): pop the client; if it existed, discard its id
from the subscriber set of each of its channels. -/
def disconnect (st : MState) (cid : ℕ) : MState :=
  match dictGet st.clients cid with
  | none => st
  | some info =>
      { st with
        clients := dictPop st.clients cid,
        subs := fun ch =>
          if ch ∈ info.channels then (st.subs ch).erase cid else st.subs ch }

def bumpInfo (i : ClientInfo) : ClientInfo :=
  { i with messagesSent := i.messagesSent + 1 }

/-- `_send` (lines 133-142) as a state transformer, given the transport
outcome.  On `ok` the aliased `info.messages_sent += 1` mutates the dict
entry; on `raises` the manager disconnects that client; on `closed` nothing
happens and False is returned. -/
def sendStep (st : MState) (cid : ℕ) (out : SendOutcome) : MState × Bool :=
  match out with
  | .closed => (st, false)
  | .ok => ({ st with clients := mapAtKey bumpInfo st.clients cid }, true)
  | .raises => (disconnect st cid, false)

/-- Full `connect` (lines 54-71): registration followed by the welcome
`_send` (whose payload does not affect registry state). -/
def connect (st : MState) (welcome : SendOutcome) : MState :=
  let r := connectReg st
  (sendStep r.1 r.2 welcome).1

/-- `subscribe` (lines 83-92).  The source iterates over `channels` doing
`info.channels.add(ch)` / `self._channel_subs[ch].add(client_id)` for each
requested name in `ALL_CHANNELS`; a loop of idempotent, commutative set
insertions, written here pointwise. -/
def subscribe (st : MState) (cid : ℕ) (names : List String) :
    MState × Finset String :=
  match dictGet st.clients cid with
  | none => (st, ∅)
  | some info =>
      let chans := info.channels ∪ (names.filter (fun ch => decide (ch ∈ ALL_CHANNELS))).toFinset
      ({ st with
         clients := dictSet st.clients cid { info with channels := chans },
         subs := fun ch =>
           if ch ∈ names ∧ ch ∈ ALL_CHANNELS then insert cid (st.subs ch)
           else st.subs ch },
       chans)

/-- `unsubscribe` (lines 94-103).  The source iterates over `channels` doing
`info.channels.discard(ch)` / `self._channel_subs[ch].discard(client_id)` for
each requested name other than `"system"`; written pointwise like
`subscribe`. -/
def unsubscribe (st : MState) (cid : ℕ) (names : List String) :
    MState × Finset String :=
  match dictGet st.clients cid with
  | none => (st, ∅)
  | some info =>
      let chans := info.channels.filter (fun ch => ¬ (ch ∈ names ∧ ch ≠ "system"))
      ({ st with
         clients := dictSet st.clients cid { info with channels := chans },
         subs := fun ch =>
           if ch ∈ names ∧ ch ≠ "system" then (st.subs ch).erase cid
           else st.subs ch },
       chans)

/-- Delivery loop of `broadcast` (lines 116-122): walk the snapshot of
subscriber ids, look each client up in the *current* dict, `_send`, and count
the successful deliveries. -/
def broadcastGo (out : ℕ → SendOutcome) :
    MState → List ℕ → ℕ → MState × ℕ
  | st, [], sent => (st, sent)
  | st, cid :: rest, sent =>
      match dictGet st.clients cid with
      | none => broadcastGo out st rest sent
      | some _ =>
          let r := sendStep st cid (out cid)
          broadcastGo out r.1 rest (if r.2 then sent + 1 else sent)

/-- `broadcast` (lines 107-122), state part: snapshot
`list(self._channel_subs.get(channel, set()))` under the lock, then deliver.
The snapshot list is enumerated in ascending id order (`Finset.sort`); the
source's set-iteration order is unspecified and nothing here depends on it.
The payload stamping of lines 109-110 is the pure `stampPayload` below. -/
def broadcast (st : MState) (channel : String) (out : ℕ → SendOutcome) :
    MState × ℕ :=
  broadcastGo out st ((st.subs channel).sort (· ≤ ·)) 0

/-- `send_to` (lines 124-129): deliver to one client if it is registered. -/
def sendTo (st : MState) (cid : ℕ) (out : SendOutcome) : MState × Bool :=
  match dictGet st.clients cid with
  | none => (st, false)
  | some _ => sendStep st cid out

/-- `stats()["total_messages_sent"]` (line 156): sum of the per-session
counters over the *currently connected* clients. -/
def totalMessagesSent (st : MState) : ℕ :=
  (st.clients.map (fun p => p.2.messagesSent)).sum

/-- One registry operation, as invocable through the public surface; send
outcomes are the transport's choices. -/
inductive Op where
  | connect (welcome : SendOutcome)
  | subscribe (cid : ℕ) (names : List String)
  | unsubscribe (cid : ℕ) (names : List String)
  | disconnect (cid : ℕ)
  | sendTo (cid : ℕ) (out : SendOutcome)
  | broadcast (channel : String) (out : ℕ → SendOutcome)

def step (st : MState) : Op → MState
  | .connect w => connect st w
  | .subscribe cid names => (subscribe st cid names).1
  | .unsubscribe cid names => (unsubscribe st cid names).1
  | .disconnect cid => disconnect st cid
  | .sendTo cid out => (sendTo st cid out).1
  | .broadcast ch out => (broadcast st ch out).1

/-- Registry state after a sequence of completed operations, from startup. -/
def run (ops : List Op) : MState := ops.foldl step initState

/-- Bidirectional channel-membership invariant: a connected session is in a
channel's subscriber set exactly when that channel is in its own set. -/
def ChanInv (st : MState) : Prop :=
  ∀ cid info, dictGet st.clients cid = some info →
    ∀ ch, cid ∈ st.subs ch ↔ ch ∈ info.channels

/-- Bookkeeping: every id in the registry or any subscriber set was issued by
the counter, so the next generated id is fresh. -/
def Bounded (st : MState) : Prop :=
  (∀ cid, cid ∈ keys st.clients → cid ≤ st.counter) ∧
  (∀ ch cid, cid ∈ st.subs ch → cid ≤ st.counter)

/-- Every connected session is subscribed to `"system"`. -/
def SysInv (st : MState) : Prop :=
  ∀ cid info, dictGet st.clients cid = some info → "system" ∈ info.channels

def Inv (st : MState) : Prop := ChanInv st ∧ Bounded st ∧ SysInv st

end ConnectionManager

/-! Embedding of `backend/app/services/vessel_tracker.py`. -/

namespace VesselTracker

/-- `MAX_VESSELS` (line 244): hard cap on the entity registry. -/
def MAX_VESSELS : ℕ := 500

/-- `VesselPosition` dataclass (lines 45-59). -/
structure VesselPosition where
  mmsi : String
  name : String
  vesselType : String
  lat : ℚ
  lon : ℚ
  speedKnots : ℚ
  heading : ℚ
  destination : String
  flagIso : String
  lengthM : ℚ
  draughtM : ℚ
  lastUpdate : ℚ
deriving DecidableEq

/-- `MetaData` of an aisstream.io message, as read by `_process_ais_message`:
`mmsi` is the result of `str(meta.get("MMSI", ""))`; the optional fields model
key presence (`meta.get(key, default)` becomes `field.getD default`). -/
structure MetaData where
  mmsi : String
  shipName : Option String
  latitude : Option ℚ
  longitude : Option ℚ

/-- Fields of a `PositionReport` message body, each optional exactly as the
source reads it with `.get(key, default)`. -/
structure PositionReport where
  latitude : Option ℚ
  longitude : Option ℚ
  trueHeading : Option ℚ
  cog : Option ℚ
  sog : Option ℚ

/-- Fields of a `ShipStaticData` message body.  `dimension` is the `Dimension`
sub-dict with its `A` and `B` entries (`none` when absent/empty, which Python
treats as falsy and maps to length 0). -/
structure StaticData where
  shipType : ℚ
  name : Option String
  destination : Option String
  dimension : Option (ℚ × ℚ)
  draught : ℚ

/-- One decoded aisstream.io message: `MessageType` plus its body. -/
inductive AISMessage where
  | positionReport (meta : MetaData) (pr : PositionReport)
  | shipStaticData (meta : MetaData) (sd : StaticData)
  | other (meta : MetaData)

/-- Validity conditions under which `_process_ais_message` accepts a position
report: plausible MMSI (lines 364-366), non-null position (lines 374-375),
in-range position (lines 376-377). -/
def validReport (meta : MetaData) (pr : PositionReport) : Prop :=
  ¬ (meta.mmsi = "" ∨ meta.mmsi.length < 5) ∧
  ¬ (pr.latitude.getD 0 = 0 ∧ pr.longitude.getD 0 = 0) ∧
  (-90 ≤ pr.latitude.getD 0 ∧ pr.latitude.getD 0 ≤ 90 ∧
    -180 ≤ pr.longitude.getD 0 ∧ pr.longitude.getD 0 ≤ 180)

/-- `_process_ais_message` (lines 360-446) acting on the `_vessels` dict.
`flagOf` stands for the static MID lookup table `_mmsi_to_flag`
(lines 448-560) and `typeOf name code` for
`_refine_type_by_name(name, _ais_type_to_gefo(code))` (line 409 and 416):
pure total classification functions whose outputs no claim constrains, passed
as parameters instead of transcribing their tables.  `now` is `time.time()`. -/
def processAisMessage (flagOf : String → String)
    (typeOf : String → ℚ → String) (now : ℚ)
    (vessels : List (String × VesselPosition)) (msg : AISMessage) :
    List (String × VesselPosition) :=
  match msg with
  | .positionReport meta pr =>
      if meta.mmsi = "" ∨ meta.mmsi.length < 5 then vessels
      else
        let lat := pr.latitude.getD 0
        let lon := pr.longitude.getD 0
        if lat = 0 ∧ lon = 0 then vessels
        else if ¬ (-90 ≤ lat ∧ lat ≤ 90 ∧ -180 ≤ lon ∧ lon ≤ 180) then vessels
        else
          let headingRaw := pr.trueHeading.getD 511
          let cog := pr.cog.getD 0
          let heading := if headingRaw = 511 then cog else headingRaw
          match dictGet vessels meta.mmsi with
          | some v =>
              dictSet vessels meta.mmsi
                { v with lat := lat, lon := lon,
                         speedKnots := pr.sog.getD v.speedKnots,
                         heading := heading, lastUpdate := now }
          | none =>
              if vessels.length < MAX_VESSELS then
                let fallback := "VESSEL-" ++ meta.mmsi.takeRight 4
                let name0 := (meta.shipName.getD fallback).trim
                let shipName := if name0 = "" then fallback else name0
                dictSet vessels meta.mmsi
                  { mmsi := meta.mmsi, name := shipName, vesselType := "cargo",
                    lat := lat, lon := lon, speedKnots := pr.sog.getD 0,
                    heading := heading, destination := "",
                    flagIso := flagOf meta.mmsi, lengthM := 0, draughtM := 0,
                    lastUpdate := now }
              else vessels
  | .shipStaticData meta sd =>
      if meta.mmsi = "" ∨ meta.mmsi.length < 5 then vessels
      else
        let name := (sd.name.getD "").trim
        let destination := (sd.destination.getD "").trim
        let length := match sd.dimension with
          | some d => d.1 + d.2
          | none => 0
        let vtype := typeOf name sd.shipType
        match dictGet vessels meta.mmsi with
        | some v =>
            dictSet vessels meta.mmsi
              { v with
                name := if name ≠ "" then name else v.name,
                vesselType := vtype,
                destination := if destination ≠ "" then destination else v.destination,
                lengthM := if 0 < length then length else v.lengthM,
                draughtM := if 0 < sd.draught then sd.draught else v.draughtM }
        | none =>
            if vessels.length < MAX_VESSELS then
              let lat := meta.latitude.getD 0
              let lon := meta.longitude.getD 0
              if lat ≠ 0 ∨ lon ≠ 0 then
                dictSet vessels meta.mmsi
                  { mmsi := meta.mmsi,
                    name := if name ≠ "" then name
                            else "VESSEL-" ++ meta.mmsi.takeRight 4,
                    vesselType := vtype, lat := lat, lon := lon,
                    speedKnots := 0, heading := 0, destination := destination,
                    flagIso := flagOf meta.mmsi, lengthM := length,
                    draughtM := sd.draught, lastUpdate := now }
              else vessels
            else vessels
  | .other _ => vessels

/-- Cursor part of a `SimulatedVessel` (lines 225-233): current segment index
and fractional progress along it. -/
structure Cursor where
  currentSegment : ℕ
  segmentProgress : ℚ
deriving DecidableEq

/-- Segment-hopping while-loop of `_advance_vessel` (lines 741-749):
`while segment_progress >= 1.0 and current_segment < len(wps) - 2`.  `segDist`
gives the haversine distance between consecutive waypoint indices; the last
argument threads `seg_dist_nm` (updated only when the new segment is longer
than 0.1, exactly as in the source).  Each iteration increments
`current_segment`, which is bounded by `n - 2`, so fuel `n` at the call site
always suffices for full execution of the loop. -/
def advanceLoop (segDist : ℕ → ℕ → ℚ) (n : ℕ) :
    ℕ → ℕ → ℚ → ℚ → ℕ × ℚ × ℚ
  | 0, cur, prog, d => (cur, prog, d)
  | fuel + 1, cur, prog, d =>
      if 1 ≤ prog ∧ cur < n - 2 then
        let cur' := cur + 1
        let nd := segDist cur' (min (cur' + 1) (n - 1))
        if 1/10 < nd then advanceLoop segDist n fuel cur' ((prog - 1) * d / nd) nd
        else advanceLoop segDist n fuel cur' (prog - 1) d
      else (cur, prog, d)

/-- `_advance_vessel` (lines 715-766), cursor part.  `segDist i j` abstracts
`_haversine_nm` between waypoints `i` and `j` of the route (the claims pin its
value directly, in arbitrary units); `dist` is the tick distance
`(speed / 3600) * SIM_UPDATE_INTERVAL` of lines 731-735, a run-time value
because of the random speed jitter.  Lines 758-766 (position interpolation,
jitter, heading, speed) do not touch the cursor and are omitted. -/
def advanceVessel (segDist : ℕ → ℕ → ℚ) (n : ℕ) (dist : ℚ) (cv : Cursor) :
    Cursor :=
  if n < 2 then cv
  else
    let d0 := segDist cv.currentSegment (min (cv.currentSegment + 1) (n - 1))
    let d1 := if d0 < 1/10 then 1/10 else d0
    let prog := cv.segmentProgress + dist / d1
    let r := advanceLoop segDist n n cv.currentSegment prog d1
    if n - 2 ≤ r.1 ∧ 1 ≤ r.2.1 then ⟨0, 0⟩ else ⟨r.1, r.2.1⟩

/-- JSON-ish value inside a broadcast payload.  Only the field structure the
claims inspect is distinguished; the vessels array carries the snapshot
entries produced by `get_vessels`. -/
inductive PVal where
  | str (s : String)
  | num (q : ℚ)
  | jlist (vs : List VesselPosition)
deriving DecidableEq

/-- Python `dict.setdefault(k, v)`: insert only when the key is absent. -/
def setdefault (d : List (String × PVal)) (k : String) (v : PVal) :
    List (String × PVal) :=
  if (dictGet d k).isSome then d else d ++ [(k, v)]

/-- Payload dict built by `VesselTracker._broadcast_loop` (lines 776-781):
`type` is set explicitly to `"vessel_positions"`. -/
def broadcastLoopPayload (now : ℚ) (vessels : List VesselPosition) :
    List (String × PVal) :=
  [("type", .str "vessel_positions"), ("timestamp", .num now),
   ("count", .num (vessels.length : ℚ)), ("vessels", .jlist vessels)]

/-- Payload stamping done at the top of `ConnectionManager.broadcast`
(manager lines 109-110): `data.setdefault("ts", time.time())` then
`data.setdefault("type", channel)`. -/
def stampPayload (now : ℚ) (channel : String) (d : List (String × PVal)) :
    List (String × PVal) :=
  setdefault (setdefault d "ts" (.num now)) "type" (.str channel)

end VesselTracker

/-! Concrete fixtures used by witness and counterexample theorems. -/

namespace ConnectionManager

/-- Two clients, both subscribed to `"trade"`. -/
def stup : MState :=
  ⟨[(1, ⟨{"system", "trade"}, 0⟩), (2, ⟨{"system", "trade"}, 0⟩)],
   fun ch => if ch = "system" ∨ ch = "trade" then {1, 2} else ∅, 2⟩

/-- Transport behaviour: client 2's socket raises on send, client 1 is fine. -/
def outW (c : ℕ) : SendOutcome := if c = 2 then .raises else .ok

/-- Transport behaviour: client 2's socket is no longer in the CONNECTED
state (`_send` returns False without raising), client 1 is fine. -/
def outC (c : ℕ) : SendOutcome := if c = 2 then .closed else .ok

/-- Two clients with sent-message counters 3 and 5. -/
def stCnt : MState :=
  ⟨[(1, ⟨{"system"}, 3⟩), (2, ⟨{"system"}, 5⟩)],
   fun ch => if ch = "system" then {1, 2} else ∅, 2⟩

end ConnectionManager

namespace VesselTracker

/-- Stand-in for the `_mmsi_to_flag` table. -/
def flag0 (m : String) : String := if m = "" then "" else "PAN"

/-- Stand-in for the type classification. -/
def type0 (n : String) (c : ℚ) : String := if n = "" ∧ c = 0 then "cargo" else "cargo"

/-- A registry entry used by fixtures. -/
def v0 : VesselPosition :=
  ⟨"123456789", "TEST SHIP", "cargo", 10, 20, 12, 90, "", "PAN", 0, 0, 0⟩

/-- Distinct three-digit-suffix identity keys for the full-registry fixture. -/
def mmsiKey (i : ℕ) : String :=
  "MMSI-" ++ String.mk [Char.ofNat (48 + i / 100), Char.ofNat (48 + (i / 10) % 10),
    Char.ofNat (48 + i % 10)]

/-- A registry filled to the `MAX_VESSELS` hard cap. -/
def st500 : List (String × VesselPosition) :=
  (List.range MAX_VESSELS).map (fun i => (mmsiKey i, v0))

/-- A registry holding only `v0`. -/
def stV : List (String × VesselPosition) := [("123456789", v0)]

/-- A position report with the heading-unavailable sentinel. -/
def pr511 : PositionReport := ⟨some 10, some 20, some 511, some 77, some 14⟩

/-- A position report carrying a real true heading. -/
def pr90 : PositionReport := ⟨some 10, some 20, some 90, some 77, some 14⟩

/-- Metadata for the fixture vessel. -/
def metaV : MetaData := ⟨"123456789", some "TEST SHIP", none, none⟩

/-- Metadata for an identity not in `st500`. -/
def metaNew : MetaData := ⟨"999999999", none, none, none⟩

/-- Static-data message metadata whose embedded position is far out of
geographic range (latitude 95). -/
def metaBad : MetaData := ⟨"123456789", none, some 95, some 10⟩

/-- Static-data body for the out-of-range creation. -/
def sdBad : StaticData := ⟨70, some "BAD COORD", none, none, 0⟩

/-- The 2-waypoint route of the loop-closure scenario: its single segment has
great-circle length 1000 (arbitrary units). -/
def segDist1000 (i j : ℕ) : ℚ := if i = 0 ∧ j = 1 then 1000 else 1000

end VesselTracker

/-! Proof development.  Everything from here on is theorems about the
definitions above. -/

section DictLemmas

variable {κ α : Type} [DecidableEq κ]

theorem dictGet_cons (p : κ × α) (rest : List (κ × α)) (k : κ) :
    dictGet (p :: rest) k = if p.1 = k then some p.2 else dictGet rest k := rfl

theorem dictSet_cons (p : κ × α) (rest : List (κ × α)) (k : κ) (v : α) :
    dictSet (p :: rest) k v =
      if p.1 = k then (k, v) :: rest else p :: dictSet rest k v := rfl

theorem dictPop_cons (p : κ × α) (rest : List (κ × α)) (k : κ) :
    dictPop (p :: rest) k =
      if p.1 = k then dictPop rest k else p :: dictPop rest k := by
  by_cases hp : p.1 = k <;> simp [dictPop, List.filter_cons, hp]

theorem mapAtKey_cons (f : α → α) (p : κ × α) (rest : List (κ × α)) (k : κ) :
    mapAtKey f (p :: rest) k =
      (if p.1 = k then (p.1, f p.2) else p) :: mapAtKey f rest k := by
  simp [mapAtKey]

theorem dictGet_dictSet (l : List (κ × α)) (k k' : κ) (v : α) :
    dictGet (dictSet l k v) k' = if k' = k then some v else dictGet l k' := by
  induction l with
  | nil =>
      by_cases h : k' = k
      · simp [dictSet, dictGet, h]
      · have h' : ¬ k = k' := fun hc => h hc.symm
        simp [dictSet, dictGet, h, h']
  | cons p rest ih =>
      by_cases hp : p.1 = k
      · by_cases h : k' = k
        · subst h
          rw [dictSet_cons, if_pos hp, dictGet_cons, if_pos rfl, if_pos rfl]
        · have h' : ¬ k = k' := fun hc => h hc.symm
          have hp' : ¬ p.1 = k' := fun hc => h' (hp.symm.trans hc)
          rw [dictSet_cons, if_pos hp, dictGet_cons, if_neg h', if_neg h,
            dictGet_cons, if_neg hp']
      · by_cases h : k' = k
        · subst h
          rw [dictSet_cons, if_neg hp, dictGet_cons, if_neg hp, ih,
            if_pos rfl, if_pos rfl]
        · rw [dictSet_cons, if_neg hp, dictGet_cons, ih, if_neg h,
            if_neg h, dictGet_cons]

theorem dictGet_dictPop (l : List (κ × α)) (k k' : κ) :
    dictGet (dictPop l k) k' = if k' = k then none else dictGet l k' := by
  induction l with
  | nil =>
      by_cases h : k' = k <;> simp [dictPop, dictGet, h]
  | cons p rest ih =>
      by_cases hp : p.1 = k
      · by_cases h : k' = k
        · rw [dictPop_cons, if_pos hp, ih]
          simp [h]
        · have hp' : ¬ p.1 = k' := fun hc => h ((hc.symm.trans hp))
          rw [dictPop_cons, if_pos hp, ih, if_neg h, if_neg h,
            dictGet_cons, if_neg hp']
      · by_cases h : k' = k
        · have hp' : ¬ p.1 = k' := fun hc => hp (hc.trans h)
          rw [dictPop_cons, if_neg hp, dictGet_cons, if_neg hp', ih, if_pos h, if_pos h]
        · rw [dictPop_cons, if_neg hp, dictGet_cons, ih, if_neg h, if_neg h, dictGet_cons]

theorem dictGet_mapAtKey (f : α → α) (l : List (κ × α)) (k k' : κ) :
    dictGet (mapAtKey f l k) k' =
      (dictGet l k').map (fun v => if k' = k then f v else v) := by
  induction l with
  | nil => simp [dictGet, mapAtKey]
  | cons p rest ih =>
      by_cases hp : p.1 = k
      · by_cases hq : p.1 = k'
        · have h : k' = k := hq.symm.trans hp
          rw [mapAtKey_cons, if_pos hp, dictGet_cons, dictGet_cons]
          simp [hq, h]
        · rw [mapAtKey_cons, if_pos hp, dictGet_cons, dictGet_cons]
          simp [hq, ih]
      · by_cases hq : p.1 = k'
        · have h : ¬ k' = k := fun hc => hp (hq.trans hc)
          rw [mapAtKey_cons, if_neg hp, dictGet_cons, dictGet_cons]
          simp [hq, h]
        · rw [mapAtKey_cons, if_neg hp, dictGet_cons, dictGet_cons]
          simp [hq, ih]

theorem keys_mapAtKey (f : α → α) (l : List (κ × α)) (k : κ) :
    keys (mapAtKey f l k) = keys l := by
  induction l with
  | nil => rfl
  | cons p rest ih =>
      rw [mapAtKey_cons]
      by_cases hp : p.1 = k <;> simp [keys, hp] at ih ⊢ <;> exact ih

theorem mem_keys_dictSet {l : List (κ × α)} {k k' : κ} {v : α}
    (h : k' ∈ keys (dictSet l k v)) : k' = k ∨ k' ∈ keys l := by
  induction l with
  | nil =>
      simp [dictSet, keys] at h
      exact Or.inl h
  | cons p rest ih =>
      by_cases hp : p.1 = k
      · rw [dictSet_cons, if_pos hp] at h
        simp only [keys, List.map_cons, List.mem_cons] at h
        rcases h with h | h
        · exact Or.inl h
        · exact Or.inr (by simp [keys, List.mem_cons]; exact Or.inr (by simpa [keys] using h))
      · rw [dictSet_cons, if_neg hp] at h
        simp only [keys, List.map_cons, List.mem_cons] at h
        rcases h with h | h
        · exact Or.inr (by simp [keys, h])
        · rcases ih (by simpa [keys] using h) with h' | h'
          · exact Or.inl h'
          · exact Or.inr (by
              simp only [keys, List.map_cons, List.mem_cons]
              exact Or.inr (by simpa [keys] using h'))

theorem mem_keys_dictPop {l : List (κ × α)} {k k' : κ}
    (h : k' ∈ keys (dictPop l k)) : k' ∈ keys l :=
  ((l.filter_sublist).map Prod.fst).subset h

theorem dictGet_mem_keys {l : List (κ × α)} {k : κ} {v : α}
    (h : dictGet l k = some v) : k ∈ keys l := by
  induction l with
  | nil => simp [dictGet] at h
  | cons p rest ih =>
      by_cases hp : p.1 = k
      · simp [keys, List.mem_cons]
        exact Or.inl hp.symm
      · rw [dictGet_cons, if_neg hp] at h
        simp only [keys, List.map_cons, List.mem_cons]
        exact Or.inr (by simpa [keys] using ih h)

theorem dictPop_eq_self_of_not_mem {l : List (κ × α)} {k : κ}
    (h : k ∉ keys l) : dictPop l k = l := by
  induction l with
  | nil => rfl
  | cons p rest ih =>
      simp only [keys, List.map_cons, List.mem_cons] at h
      push_neg at h
      have hp : ¬ p.1 = k := fun hc => h.1 hc.symm
      rw [dictPop_cons, if_neg hp, ih (by simpa [keys] using h.2)]

theorem sum_dictPop (g : α → ℕ) {l : List (κ × α)} {k : κ} {v : α}
    (hnd : (keys l).Nodup) (h : dictGet l k = some v) :
    (l.map (fun p => g p.2)).sum = ((dictPop l k).map (fun p => g p.2)).sum + g v := by
  induction l with
  | nil => simp [dictGet] at h
  | cons p rest ih =>
      simp only [keys, List.map_cons, List.nodup_cons] at hnd
      by_cases hp : p.1 = k
      · rw [dictGet_cons, if_pos hp] at h
        have hrest : k ∉ keys rest := by
          rw [← hp]
          simpa [keys] using hnd.1
        rw [dictPop_cons, if_pos hp, dictPop_eq_self_of_not_mem hrest]
        simp only [List.map_cons, List.sum_cons]
        have hv : p.2 = v := by injection h
        rw [hv]
        omega
      · rw [dictGet_cons, if_neg hp] at h
        have := ih (by simpa [keys] using hnd.2) h
        rw [dictPop_cons, if_neg hp]
        simp only [List.map_cons, List.sum_cons, this]
        omega

end DictLemmas

namespace ConnectionManager

theorem inv_initState : Inv initState := by
  refine ⟨?_, ⟨?_, ?_⟩, ?_⟩
  · intro cid info h ch
    simp [initState, dictGet] at h
  · intro cid h
    simp [initState, keys] at h
  · intro ch cid h
    simp [initState] at h
  · intro cid info h
    simp [initState, dictGet] at h

theorem inv_disconnect {st : MState} (h : Inv st) (cid : ℕ) :
    Inv (disconnect st cid) := by
  obtain ⟨hc, hb, hs⟩ := h
  cases hval : dictGet st.clients cid with
  | none => simpa [disconnect, hval] using ⟨hc, hb, hs⟩
  | some info =>
      refine ⟨?_, ⟨?_, ?_⟩, ?_⟩
      · intro c i hgi ch
        simp only [disconnect, hval] at hgi ⊢
        rw [dictGet_dictPop] at hgi
        by_cases hck : c = cid
        · rw [if_pos hck] at hgi
          exact absurd hgi (by simp)
        · rw [if_neg hck] at hgi
          have hiff := hc c i hgi ch
          by_cases hch : ch ∈ info.channels
          · simp only [if_pos hch, Finset.mem_erase, ne_eq, hck, not_false_iff,
              true_and]
            exact hiff
          · rw [if_neg hch]
            exact hiff
      · intro c hcmem
        simp only [disconnect, hval] at hcmem ⊢
        exact hb.1 c (mem_keys_dictPop hcmem)
      · intro ch c hcmem
        simp only [disconnect, hval] at hcmem ⊢
        by_cases hch : ch ∈ info.channels
        · rw [if_pos hch] at hcmem
          exact hb.2 ch c (Finset.mem_of_mem_erase hcmem)
        · rw [if_neg hch] at hcmem
          exact hb.2 ch c hcmem
      · intro c i hgi
        simp only [disconnect, hval] at hgi
        rw [dictGet_dictPop] at hgi
        by_cases hck : c = cid
        · rw [if_pos hck] at hgi
          exact absurd hgi (by simp)
        · rw [if_neg hck] at hgi
          exact hs c i hgi

theorem inv_sendStep {st : MState} (h : Inv st) (cid : ℕ)
    (out : SendOutcome) : Inv (sendStep st cid out).1 := by
  obtain ⟨hc, hb, hs⟩ := h
  cases out with
  | closed => exact ⟨hc, hb, hs⟩
  | raises => exact inv_disconnect ⟨hc, hb, hs⟩ cid
  | ok =>
      refine ⟨?_, ⟨?_, ?_⟩, ?_⟩
      · intro c i hgi ch
        simp only [sendStep] at hgi ⊢
        rw [dictGet_mapAtKey] at hgi
        cases hv : dictGet st.clients c with
        | none => rw [hv] at hgi; exact absurd hgi (by simp)
        | some i0 =>
            rw [hv] at hgi
            simp only [Option.map] at hgi
            injection hgi with hgi
            have hich : i.channels = i0.channels := by
              rw [← hgi]
              by_cases hcc : c = cid <;> simp [hcc, bumpInfo]
            rw [hich]
            exact hc c i0 hv ch
      · intro c hcmem
        simp only [sendStep, keys_mapAtKey] at hcmem
        exact hb.1 c hcmem
      · intro ch c hcmem
        exact hb.2 ch c hcmem
      · intro c i hgi
        simp only [sendStep] at hgi
        rw [dictGet_mapAtKey] at hgi
        cases hv : dictGet st.clients c with
        | none => rw [hv] at hgi; exact absurd hgi (by simp)
        | some i0 =>
            rw [hv] at hgi
            simp only [Option.map] at hgi
            injection hgi with hgi
            have hich : i.channels = i0.channels := by
              rw [← hgi]
              by_cases hcc : c = cid <;> simp [hcc, bumpInfo]
            rw [hich]
            exact hs c i0 hv

theorem inv_connect {st : MState} (h : Inv st) (w : SendOutcome) :
    Inv (connect st w) := by
  obtain ⟨hc, hb, hs⟩ := h
  have hfreshKeys : dictGet st.clients (st.counter + 1) = none := by
    cases hv : dictGet st.clients (st.counter + 1) with
    | none => rfl
    | some i => exact absurd (hb.1 _ (dictGet_mem_keys hv)) (by omega)
  have hreg : Inv (connectReg st).1 := by
    refine ⟨?_, ⟨?_, ?_⟩, ?_⟩
    · intro c i hgi ch
      simp only [connectReg] at hgi ⊢
      rw [dictGet_dictSet] at hgi
      by_cases hck : c = st.counter + 1
      · rw [if_pos hck] at hgi
        injection hgi with hgi
        rw [← hgi]
        by_cases hch : ch = "system"
        · simp [hch, hck]
        · have hfree : c ∉ st.subs ch := fun hm => by
            have := hb.2 ch c hm
            omega
          simp [hch, hfree, Ne.symm hch]
      · rw [if_neg hck] at hgi
        have hiff := hc c i hgi ch
        by_cases hch : ch = "system"
        · subst hch
          rw [if_pos rfl, Finset.mem_insert]
          constructor
          · rintro (h' | h')
            · exact absurd h' hck
            · exact hiff.mp h'
          · intro h'
            exact Or.inr (hiff.mpr h')
        · rw [if_neg hch]
          exact hiff
    · intro c hcmem
      simp only [connectReg] at hcmem ⊢
      rcases mem_keys_dictSet hcmem with h' | h'
      · omega
      · have := hb.1 c h'
        omega
    · intro ch c hcmem
      simp only [connectReg] at hcmem ⊢
      by_cases hch : ch = "system"
      · rw [if_pos hch] at hcmem
        rcases Finset.mem_insert.mp hcmem with h' | h'
        · omega
        · have := hb.2 ch c h'
          omega
      · rw [if_neg hch] at hcmem
        have := hb.2 ch c hcmem
        omega
    · intro c i hgi
      simp only [connectReg] at hgi
      rw [dictGet_dictSet] at hgi
      by_cases hck : c = st.counter + 1
      · rw [if_pos hck] at hgi
        injection hgi with hgi
        rw [← hgi]
        simp
      · rw [if_neg hck] at hgi
        exact hs c i hgi
  exact inv_sendStep hreg (connectReg st).2 w

theorem inv_subscribe {st : MState} (h : Inv st) (cid : ℕ)
    (names : List String) : Inv (subscribe st cid names).1 := by
  obtain ⟨hc, hb, hs⟩ := h
  cases hval : dictGet st.clients cid with
  | none => simpa [subscribe, hval] using ⟨hc, hb, hs⟩
  | some info =>
      refine ⟨?_, ⟨?_, ?_⟩, ?_⟩
      · intro c i hgi ch
        simp only [subscribe, hval] at hgi ⊢
        rw [dictGet_dictSet] at hgi
        by_cases hck : c = cid
        · rw [if_pos hck] at hgi
          injection hgi with hgi
          rw [← hgi]
          subst hck
          by_cases hcond : ch ∈ names ∧ ch ∈ ALL_CHANNELS
          · simp [hcond, List.mem_filter, hcond.1, hcond.2]
          · have hiff := hc c info hval ch
            simp only [if_neg hcond, Finset.mem_union, List.mem_toFinset,
              List.mem_filter, decide_eq_true_eq]
            constructor
            · intro hm
              exact Or.inl (hiff.mp hm)
            · rintro (hm | ⟨hm1, hm2⟩)
              · exact hiff.mpr hm
              · exact absurd ⟨hm1, hm2⟩ hcond
        · rw [if_neg hck] at hgi
          have hiff := hc c i hgi ch
          by_cases hcond : ch ∈ names ∧ ch ∈ ALL_CHANNELS
          · simp only [if_pos hcond, Finset.mem_insert, hck, false_or]
            exact hiff
          · rw [if_neg hcond]
            exact hiff
      · intro c hcmem
        simp only [subscribe, hval] at hcmem ⊢
        rcases mem_keys_dictSet hcmem with h' | h'
        · subst h'
          exact hb.1 c (dictGet_mem_keys hval)
        · exact hb.1 c h'
      · intro ch c hcmem
        simp only [subscribe, hval] at hcmem ⊢
        by_cases hcond : ch ∈ names ∧ ch ∈ ALL_CHANNELS
        · rw [if_pos hcond] at hcmem
          rcases Finset.mem_insert.mp hcmem with h' | h'
          · subst h'
            exact hb.1 c (dictGet_mem_keys hval)
          · exact hb.2 ch c h'
        · rw [if_neg hcond] at hcmem
          exact hb.2 ch c hcmem
      · intro c i hgi
        simp only [subscribe, hval] at hgi
        rw [dictGet_dictSet] at hgi
        by_cases hck : c = cid
        · rw [if_pos hck] at hgi
          injection hgi with hgi
          rw [← hgi]
          simp only [Finset.mem_union]
          exact Or.inl (hs cid info hval)
        · rw [if_neg hck] at hgi
          exact hs c i hgi

theorem inv_unsubscribe {st : MState} (h : Inv st) (cid : ℕ)
    (names : List String) : Inv (unsubscribe st cid names).1 := by
  obtain ⟨hc, hb, hs⟩ := h
  cases hval : dictGet st.clients cid with
  | none => simpa [unsubscribe, hval] using ⟨hc, hb, hs⟩
  | some info =>
      refine ⟨?_, ⟨?_, ?_⟩, ?_⟩
      · intro c i hgi ch
        simp only [unsubscribe, hval] at hgi ⊢
        rw [dictGet_dictSet] at hgi
        by_cases hck : c = cid
        · rw [if_pos hck] at hgi
          injection hgi with hgi
          rw [← hgi]
          subst hck
          have hiff := hc c info hval ch
          by_cases hcond : ch ∈ names ∧ ch ≠ "system"
          · simp [hcond, Finset.mem_erase, Finset.mem_filter]
          · simp only [if_neg hcond, Finset.mem_filter]
            constructor
            · intro hm
              exact ⟨hiff.mp hm, by simpa using hcond⟩
            · intro hm
              exact hiff.mpr hm.1
        · rw [if_neg hck] at hgi
          have hiff := hc c i hgi ch
          by_cases hcond : ch ∈ names ∧ ch ≠ "system"
          · simp only [if_pos hcond, Finset.mem_erase, ne_eq, hck,
              not_false_iff, true_and]
            exact hiff
          · rw [if_neg hcond]
            exact hiff
      · intro c hcmem
        simp only [unsubscribe, hval] at hcmem ⊢
        rcases mem_keys_dictSet hcmem with h' | h'
        · subst h'
          exact hb.1 c (dictGet_mem_keys hval)
        · exact hb.1 c h'
      · intro ch c hcmem
        simp only [unsubscribe, hval] at hcmem ⊢
        by_cases hcond : ch ∈ names ∧ ch ≠ "system"
        · rw [if_pos hcond] at hcmem
          exact hb.2 ch c (Finset.mem_of_mem_erase hcmem)
        · rw [if_neg hcond] at hcmem
          exact hb.2 ch c hcmem
      · intro c i hgi
        simp only [unsubscribe, hval] at hgi
        rw [dictGet_dictSet] at hgi
        by_cases hck : c = cid
        · rw [if_pos hck] at hgi
          injection hgi with hgi
          rw [← hgi]
          simp only [Finset.mem_filter]
          exact ⟨hs cid info hval, by simp⟩
        · rw [if_neg hck] at hgi
          exact hs c i hgi

theorem inv_broadcastGo {out : ℕ → SendOutcome} :
    ∀ (l : List ℕ) (st : MState) (sent : ℕ), Inv st →
      Inv (broadcastGo out st l sent).1 := by
  intro l
  induction l with
  | nil => intro st sent h; exact h
  | cons cid rest ih =>
      intro st sent h
      simp only [broadcastGo]
      cases hv : dictGet st.clients cid with
      | none => exact ih st sent h
      | some i => exact ih _ _ (inv_sendStep h cid (out cid))

theorem inv_sendTo {st : MState} (h : Inv st) (cid : ℕ)
    (out : SendOutcome) : Inv (sendTo st cid out).1 := by
  cases hv : dictGet st.clients cid with
  | none => simpa [sendTo, hv] using h
  | some i => simpa [sendTo, hv] using inv_sendStep h cid out

theorem inv_step {st : MState} (h : Inv st) (op : Op) : Inv (step st op) := by
  cases op with
  | connect w => exact inv_connect h w
  | subscribe cid names => exact inv_subscribe h cid names
  | unsubscribe cid names => exact inv_unsubscribe h cid names
  | disconnect cid => exact inv_disconnect h cid
  | sendTo cid out => exact inv_sendTo h cid out
  | broadcast ch out => exact inv_broadcastGo _ st 0 h

theorem inv_run (ops : List Op) : Inv (run ops) := by
  suffices hgen : ∀ (l : List Op) (st : MState), Inv st → Inv (l.foldl step st) by
    exact hgen ops initState inv_initState
  intro l
  induction l with
  | nil => intro st h; exact h
  | cons op rest ih =>
      intro st h
      exact ih (step st op) (inv_step h op)

/-- C1: channel membership is a bidirectional invariant of the connection
registry: after every sequence of completed registry operations (connect,
subscribe, unsubscribe, disconnect, send-to and broadcast, the latter two
including the disconnect triggered by a send failure), a connected session's
id is in a channel's subscriber set iff that channel is in the session's own
channel set. -/
theorem channel_membership_invariant (ops : List Op) (cid : ℕ)
    (info : ClientInfo) (ch : String)
    (h : dictGet (run ops).clients cid = some info) :
    cid ∈ (run ops).subs ch ↔ ch ∈ info.channels :=
  (inv_run ops).1 cid info h ch

/-- Witness for C1 at a concrete operation sequence. -/
theorem channel_membership_invariant_witness :
    dictGet (run [Op.connect .ok, Op.subscribe 1 ["trade"]]).clients 1 =
        some ⟨{"system", "trade"}, 1⟩ ∧
    (1 ∈ (run [Op.connect .ok, Op.subscribe 1 ["trade"]]).subs "trade" ↔
      "trade" ∈ (⟨{"system", "trade"}, 1⟩ : ClientInfo).channels) :=
  ⟨by decide,
   channel_membership_invariant [Op.connect .ok, Op.subscribe 1 ["trade"]] 1
     ⟨{"system", "trade"}, 1⟩ "trade" (by decide)⟩

/-- C6: unsubscribe removes every requested channel name from the session's
subscriptions except `"system"`, which remains subscribed after every
unsubscribe call regardless of the requested names. -/
theorem unsubscribe_keeps_system (ops : List Op) (cid : ℕ)
    (names : List String) (info' : ClientInfo)
    (h : dictGet ((unsubscribe (run ops) cid names).1).clients cid = some info') :
    "system" ∈ info'.channels ∧
      ∀ ch ∈ names, ch ≠ "system" → ch ∉ info'.channels := by
  obtain ⟨hc, hb, hs⟩ := inv_run ops
  cases hval : dictGet (run ops).clients cid with
  | none => simp [unsubscribe, hval] at h
  | some info =>
      simp only [unsubscribe, hval] at h
      rw [dictGet_dictSet, if_pos rfl] at h
      injection h with h
      constructor
      · rw [← h]
        simp only [Finset.mem_filter]
        exact ⟨hs cid info hval, by simp⟩
      · intro ch hchn hchs
        rw [← h]
        simp only [Finset.mem_filter]
        rintro ⟨-, hcontra⟩
        exact hcontra ⟨hchn, hchs⟩

/-- Witness for C6: `unsubscribe(s, ["system", "trade"])` keeps `"system"`
subscribed and removes `"trade"`. -/
theorem unsubscribe_keeps_system_witness :
    dictGet ((unsubscribe (run [Op.connect .ok, Op.subscribe 1 ["trade"]]) 1
        ["system", "trade"]).1).clients 1 = some ⟨{"system"}, 1⟩ ∧
    ("system" ∈ (⟨({"system"} : Finset String), 1⟩ : ClientInfo).channels ∧
      ∀ ch ∈ ["system", "trade"], ch ≠ "system" →
        ch ∉ (⟨({"system"} : Finset String), 1⟩ : ClientInfo).channels) :=
  ⟨by decide,
   unsubscribe_keeps_system [Op.connect .ok, Op.subscribe 1 ["trade"]] 1
     ["system", "trade"] ⟨{"system"}, 1⟩ (by decide)⟩

/-- C10: `stats()["total_messages_sent"]` is the sum of the per-session sent
counters over currently connected sessions only; disconnecting a session
removes its contribution, so the reported total strictly decreases when the
departed session had sent anything — it is not monotonically non-decreasing. -/
theorem total_messages_not_monotone (st : MState) (cid : ℕ)
    (info : ClientInfo) (hnd : (keys st.clients).Nodup)
    (h : dictGet st.clients cid = some info) :
    totalMessagesSent st =
        totalMessagesSent (disconnect st cid) + info.messagesSent ∧
      (0 < info.messagesSent →
        totalMessagesSent (disconnect st cid) < totalMessagesSent st) := by
  have hsum' : (st.clients.map (fun p => p.2.messagesSent)).sum =
      ((dictPop st.clients cid).map (fun p => p.2.messagesSent)).sum +
        info.messagesSent := sum_dictPop (fun i => i.messagesSent) hnd h
  have hcl : (disconnect st cid).clients = dictPop st.clients cid := by
    simp [disconnect, h]
  constructor
  · rw [totalMessagesSent, totalMessagesSent, hcl]
    exact hsum'
  · intro hpos
    rw [totalMessagesSent, totalMessagesSent, hcl]
    omega

/-- Witness for C10 on a concrete two-client registry. -/
theorem total_messages_not_monotone_witness :
    totalMessagesSent stCnt = totalMessagesSent (disconnect stCnt 1) + 3 ∧
      (0 < 3 →
        totalMessagesSent (disconnect stCnt 1) < totalMessagesSent stCnt) :=
  total_messages_not_monotone stCnt 1 ⟨{"system"}, 3⟩ (by decide) (by decide)

theorem broadcast_eq_go (st : MState) (channel : String)
    (out : ℕ → SendOutcome) (l : List ℕ)
    (h : (st.subs channel).sort (· ≤ ·) = l) :
    broadcast st channel out = broadcastGo out st l 0 := by
  rw [broadcast, h]

theorem subs_stup_trade : (stup.subs "trade").sort (· ≤ ·) = [1, 2] := by
  have h2 : stup.subs "trade" = insert 1 {2} := by decide
  rw [h2]
  rw [Finset.sort_insert]
  · rw [Finset.sort_singleton]
  · intro b hb
    simp only [Finset.mem_singleton] at hb
    omega
  · decide

theorem dictGet_sendStep_ne {st : MState} {cid k : ℕ} (out : SendOutcome)
    (hne : k ≠ cid) :
    dictGet (sendStep st cid out).1.clients k = dictGet st.clients k := by
  cases out with
  | closed => rfl
  | ok =>
      simp only [sendStep]
      rw [dictGet_mapAtKey]
      cases dictGet st.clients k <;> simp [hne]
  | raises =>
      simp only [sendStep]
      cases hv : dictGet st.clients cid with
      | none => simp [disconnect, hv]
      | some i =>
          simp only [disconnect, hv]
          rw [dictGet_dictPop]
          simp [hne]

theorem dictGet_sendStep_raises (st : MState) (cid : ℕ) :
    dictGet (sendStep st cid .raises).1.clients cid = none := by
  simp only [sendStep]
  cases hv : dictGet st.clients cid with
  | none => simp [disconnect, hv]
  | some i =>
      simp only [disconnect, hv]
      rw [dictGet_dictPop]
      simp

theorem isSome_sendStep_not_raises {st : MState} {cid k : ℕ}
    {out : SendOutcome} (h : out ≠ .raises ∨ k ≠ cid) :
    (dictGet (sendStep st cid out).1.clients k).isSome =
      (dictGet st.clients k).isSome := by
  cases out with
  | closed => rfl
  | ok =>
      simp only [sendStep]
      rw [dictGet_mapAtKey]
      cases dictGet st.clients k <;> simp
  | raises =>
      rcases h with h | h
      · exact absurd rfl h
      · rw [dictGet_sendStep_ne _ h]

theorem broadcastGo_untouched (out : ℕ → SendOutcome) :
    ∀ (l : List ℕ) (st : MState) (sent k : ℕ), k ∉ l →
      dictGet (broadcastGo out st l sent).1.clients k = dictGet st.clients k := by
  intro l
  induction l with
  | nil => intro st sent k _; rfl
  | cons cid rest ih =>
      intro st sent k hk
      simp only [List.mem_cons] at hk
      push_neg at hk
      simp only [broadcastGo]
      cases hv : dictGet st.clients cid with
      | none => exact ih st sent k hk.2
      | some i =>
          rw [ih _ _ k hk.2, dictGet_sendStep_ne _ hk.1]

theorem broadcastGo_count (out : ℕ → SendOutcome) :
    ∀ (l : List ℕ) (st : MState) (sent : ℕ), l.Nodup →
      (broadcastGo out st l sent).2 =
        sent + l.countP
          (fun c => (dictGet st.clients c).isSome && decide (out c = .ok)) := by
  intro l
  induction l with
  | nil => intro st sent _; simp [broadcastGo]
  | cons cid rest ih =>
      intro st sent hnd
      simp only [List.nodup_cons] at hnd
      simp only [broadcastGo]
      cases hv : dictGet st.clients cid with
      | none =>
          rw [ih st sent hnd.2, List.countP_cons]
          simp [hv]
      | some i =>
          rw [ih _ _ hnd.2, List.countP_cons]
          have hsame : rest.countP
              (fun c => (dictGet (sendStep st cid (out cid)).1.clients c).isSome
                && decide (out c = .ok)) =
              rest.countP
              (fun c => (dictGet st.clients c).isSome && decide (out c = .ok)) := by
            refine List.countP_congr ?_
            intro c hcmem
            have hcne : c ≠ cid := fun hcc => hnd.1 (hcc ▸ hcmem)
            rw [dictGet_sendStep_ne _ hcne]
          rw [hsame]
          cases hout : out cid with
          | ok => simp [sendStep, hv, hout]; omega
          | closed => simp [sendStep, hv, hout]
          | raises => simp [sendStep, hv, hout]

theorem broadcastGo_raises_removed (out : ℕ → SendOutcome) :
    ∀ (l : List ℕ) (st : MState) (sent k : ℕ), l.Nodup → k ∈ l →
      (dictGet st.clients k).isSome → out k = .raises →
      dictGet (broadcastGo out st l sent).1.clients k = none := by
  intro l
  induction l with
  | nil => intro st sent k _ hk; simp at hk
  | cons cid rest ih =>
      intro st sent k hnd hk hsome hout
      simp only [List.nodup_cons] at hnd
      simp only [List.mem_cons] at hk
      simp only [broadcastGo]
      rcases hk with hk | hk
      · subst hk
        cases hv : dictGet st.clients k with
        | none => rw [hv] at hsome; simp at hsome
        | some i =>
            rw [broadcastGo_untouched out rest _ _ k hnd.1, hout,
              dictGet_sendStep_raises]
      · have hkne : k ≠ cid := fun hcc => hnd.1 (hcc ▸ hk)
        cases hv : dictGet st.clients cid with
        | none => exact ih st sent k hnd.2 hk hsome hout
        | some i =>
            refine ih _ _ k hnd.2 hk ?_ hout
            rw [dictGet_sendStep_ne _ hkne]
            exact hsome

theorem broadcastGo_not_raises_kept (out : ℕ → SendOutcome) :
    ∀ (l : List ℕ) (st : MState) (sent k : ℕ), out k ≠ .raises →
      (dictGet (broadcastGo out st l sent).1.clients k).isSome =
        (dictGet st.clients k).isSome := by
  intro l
  induction l with
  | nil => intro st sent k _; rfl
  | cons cid rest ih =>
      intro st sent k hout
      simp only [broadcastGo]
      cases hv : dictGet st.clients cid with
      | none => exact ih st sent k hout
      | some i =>
          rw [ih _ _ k hout]
          by_cases hkc : k = cid
          · subst hkc
            exact isSome_sendStep_not_raises (Or.inl hout)
          · exact isSome_sendStep_not_raises (Or.inr hkc)

/-- C2 (amended): for every `broadcast(channel, payload)` call, (i) the
returned value equals the number of subscribers whose delivery succeeded;
(ii) a subscriber whose send raises a transport error is removed from the
registry by the end of the call, while delivery is still attempted to every
other subscriber; (iii) a subscriber whose delivery fails only because its
socket is no longer in the CONNECTED state (and any client whose send does
not raise) is still registered after the call. -/
theorem broadcast_isolation (st : MState) (channel : String)
    (out : ℕ → SendOutcome) :
    (broadcast st channel out).2 =
        ((st.subs channel).sort (· ≤ ·)).countP
          (fun c => (dictGet st.clients c).isSome && decide (out c = .ok)) ∧
      (∀ cid, cid ∈ st.subs channel → (dictGet st.clients cid).isSome →
        out cid = .raises →
        dictGet (broadcast st channel out).1.clients cid = none) ∧
      (∀ cid, out cid ≠ .raises →
        (dictGet (broadcast st channel out).1.clients cid).isSome =
          (dictGet st.clients cid).isSome) := by
  refine ⟨?_, ?_, ?_⟩
  · simpa using
      broadcastGo_count out ((st.subs channel).sort (· ≤ ·)) st 0
        ((st.subs channel).sort_nodup _)
  · intro cid hmem hsome hout
    exact broadcastGo_raises_removed out ((st.subs channel).sort (· ≤ ·)) st 0
      cid ((st.subs channel).sort_nodup _) ((Finset.mem_sort _).mpr hmem)
      hsome hout
  · intro cid hout
    exact broadcastGo_not_raises_kept out ((st.subs channel).sort (· ≤ ·)) st 0
      cid hout

/-- Witness for C2 (amended): two subscribers of `"trade"`, client 2's socket
raises; client 1 still receives (count 1) and client 2 is gone afterwards. -/
theorem broadcast_isolation_witness :
    dictGet (broadcast stup "trade" outW).1.clients 2 = none ∧
      (broadcast stup "trade" outW).2 = 1 := by
  refine ⟨(broadcast_isolation stup "trade" outW).2.1 2 (by decide) (by decide)
    rfl, ?_⟩
  rw [(broadcast_isolation stup "trade" outW).1, subs_stup_trade]
  decide

/-- Counterexample to C2 as stated: a broadcast with two subscribers in which
delivery to client 2 fails — its socket is not in the CONNECTED state, so it
does not receive the event and the call returns 1 successful delivery, not 2.
Delivery to the other subscriber still happens (client 1's sent counter
advances), but the failing subscriber is still in the registry at the end of
the call: only a raising send triggers `disconnect`, so the claimed removal
of every failing subscriber does not hold. -/
theorem broadcast_isolation_counterexample :
    (broadcast stup "trade" outC).2 = 1 ∧
      dictGet (broadcast stup "trade" outC).1.clients 2 =
        some ⟨{"system", "trade"}, 0⟩ ∧
      dictGet (broadcast stup "trade" outC).1.clients 1 =
        some ⟨{"system", "trade"}, 1⟩ := by
  rw [broadcast_eq_go stup "trade" _ [1, 2] subs_stup_trade]
  decide

end ConnectionManager

namespace VesselTracker

/-- C9: a live position report whose latitude and longitude are both exactly 0
is discarded without effect — no entity is created or updated — even though
(0, 0) lies within valid geographic bounds (the null-island check at lines
374-375 runs before the range check). -/
theorem zero_position_discarded (flagOf : String → String)
    (typeOf : String → ℚ → String) (now : ℚ)
    (vessels : List (String × VesselPosition)) (meta : MetaData)
    (pr : PositionReport) (hlat : pr.latitude.getD 0 = 0)
    (hlon : pr.longitude.getD 0 = 0) :
    processAisMessage flagOf typeOf now vessels (.positionReport meta pr) =
      vessels := by
  simp only [processAisMessage]
  by_cases hm : meta.mmsi = "" ∨ meta.mmsi.length < 5
  · rw [if_pos hm]
  · rw [if_neg hm, if_pos ⟨hlat, hlon⟩]

/-- Witness for C9: a (0, 0) report leaves a concrete registry unchanged. -/
theorem zero_position_discarded_witness :
    processAisMessage flag0 type0 5 stV
        (.positionReport metaV ⟨some 0, some 0, none, none, none⟩) = stV :=
  zero_position_discarded flag0 type0 5 stV metaV _ (by rfl) (by rfl)

/-- C7: a position report whose TrueHeading equals the AIS sentinel 511 (or
lacks the field, which reads as 511) stores the course-over-ground value as
the entity's heading; a report with any other TrueHeading stores that
heading. -/
theorem heading_sentinel_fallback (flagOf : String → String)
    (typeOf : String → ℚ → String) (now : ℚ)
    (vessels : List (String × VesselPosition)) (meta : MetaData)
    (pr : PositionReport) (hvalid : validReport meta pr)
    (hcap : (dictGet vessels meta.mmsi).isSome ∨
      vessels.length < MAX_VESSELS) :
    (dictGet (processAisMessage flagOf typeOf now vessels
        (.positionReport meta pr)) meta.mmsi).map (fun v => v.heading) =
      some (if pr.trueHeading.getD 511 = 511 then pr.cog.getD 0
            else pr.trueHeading.getD 511) := by
  obtain ⟨hm, hz, hr⟩ := hvalid
  simp only [processAisMessage]
  rw [if_neg hm, if_neg hz, if_neg (not_not_intro hr)]
  cases hv : dictGet vessels meta.mmsi with
  | some v =>
      rw [dictGet_dictSet, if_pos rfl]
      rfl
  | none =>
      rcases hcap with hcap | hcap
      · rw [hv] at hcap
        simp at hcap
      · rw [if_pos hcap, dictGet_dictSet, if_pos rfl]
        rfl

/-- Witness for C7: with TrueHeading 511 the stored heading is Cog (77); with
TrueHeading 90 it is 90. -/
theorem heading_sentinel_fallback_witness :
    (dictGet (processAisMessage flag0 type0 5 stV
        (.positionReport metaV pr511)) metaV.mmsi).map (fun v => v.heading) =
      some 77 ∧
    (dictGet (processAisMessage flag0 type0 5 stV
        (.positionReport metaV pr90)) metaV.mmsi).map (fun v => v.heading) =
      some 90 := by
  constructor
  · have h := heading_sentinel_fallback flag0 type0 5 stV metaV pr511
      ⟨by decide, by norm_num [metaV, pr511], by norm_num [metaV, pr511]⟩ (Or.inl (by rfl))
    rw [h]
    norm_num [pr511]
  · have h := heading_sentinel_fallback flag0 type0 5 stV metaV pr90
      ⟨by decide, by norm_num [metaV, pr90], by norm_num [metaV, pr90]⟩ (Or.inl (by rfl))
    rw [h]
    norm_num [pr90]

/-- C8: when the registry holds at least the MAX_VESSELS hard cap, a position
report for an identity not present leaves the registry unchanged (processing
is total, so no error is raised), while a report for a present identity still
updates that entity's state. -/
theorem capacity_cap (flagOf : String → String) (typeOf : String → ℚ → String)
    (now : ℚ) (meta : MetaData) (pr : PositionReport) :
    (∀ vessels : List (String × VesselPosition),
      MAX_VESSELS ≤ vessels.length → dictGet vessels meta.mmsi = none →
      processAisMessage flagOf typeOf now vessels (.positionReport meta pr) =
        vessels) ∧
    (∀ (vessels : List (String × VesselPosition)) (v : VesselPosition),
      validReport meta pr → dictGet vessels meta.mmsi = some v →
      dictGet (processAisMessage flagOf typeOf now vessels
          (.positionReport meta pr)) meta.mmsi =
        some { v with lat := pr.latitude.getD 0, lon := pr.longitude.getD 0,
                      speedKnots := pr.sog.getD v.speedKnots,
                      heading := if pr.trueHeading.getD 511 = 511
                                 then pr.cog.getD 0
                                 else pr.trueHeading.getD 511,
                      lastUpdate := now }) := by
  constructor
  · intro vessels hfull habsent
    simp only [processAisMessage]
    by_cases hm : meta.mmsi = "" ∨ meta.mmsi.length < 5
    · rw [if_pos hm]
    · rw [if_neg hm]
      by_cases hz : pr.latitude.getD 0 = 0 ∧ pr.longitude.getD 0 = 0
      · rw [if_pos hz]
      · rw [if_neg hz]
        by_cases hrg : -90 ≤ pr.latitude.getD 0 ∧ pr.latitude.getD 0 ≤ 90 ∧
            -180 ≤ pr.longitude.getD 0 ∧ pr.longitude.getD 0 ≤ 180
        · rw [if_neg (not_not_intro hrg)]
          simp only [habsent]
          rw [if_neg (by omega : ¬ vessels.length < MAX_VESSELS)]
        · rw [if_pos hrg]
  · intro vessels v hvalid hpresent
    obtain ⟨hm, hz, hr⟩ := hvalid
    simp only [processAisMessage]
    rw [if_neg hm, if_neg hz, if_neg (not_not_intro hr)]
    simp only [hpresent]
    rw [dictGet_dictSet, if_pos rfl]

set_option maxRecDepth 4000 in
/-- Witness for C8: a report for a new identity against a 500-entry registry
is a no-op; a report for the present identity updates it. -/
theorem capacity_cap_witness :
    processAisMessage flag0 type0 5 st500 (.positionReport metaNew pr511) =
      st500 ∧
    dictGet (processAisMessage flag0 type0 5 stV
        (.positionReport metaV pr511)) metaV.mmsi =
      some { v0 with lat := 10, lon := 20, speedKnots := 14, heading := 77,
                     lastUpdate := 5 } := by
  constructor
  · exact (capacity_cap flag0 type0 5 metaNew pr511).1 st500
      (by simp [st500, MAX_VESSELS]) (by decide)
  · have h := (capacity_cap flag0 type0 5 metaV pr511).2 stV v0
      ⟨by decide, by norm_num [metaV, pr511], by norm_num [metaV, pr511]⟩ (by rfl)
    rw [h]
    norm_num [pr511, v0]

/-- C4 (amended): position-report ingestion enforces geographic bounds — an
out-of-range position report is discarded without effect, and every registry
entry a position report creates or modifies has latitude in [-90, 90] and
longitude in [-180, 180] (entries it does not touch are returned unchanged).
The original registry-wide invariant fails: the static-data creation path
stores the unvalidated MetaData coordinates — see the counterexample. -/
theorem position_reports_respect_bounds (flagOf : String → String)
    (typeOf : String → ℚ → String) (now : ℚ)
    (vessels : List (String × VesselPosition)) (meta : MetaData)
    (pr : PositionReport) :
    (¬ (-90 ≤ pr.latitude.getD 0 ∧ pr.latitude.getD 0 ≤ 90 ∧
        -180 ≤ pr.longitude.getD 0 ∧ pr.longitude.getD 0 ≤ 180) →
      processAisMessage flagOf typeOf now vessels (.positionReport meta pr) =
        vessels) ∧
    (∀ (k : String) (v : VesselPosition),
      dictGet (processAisMessage flagOf typeOf now vessels
          (.positionReport meta pr)) k = some v →
      dictGet vessels k = some v ∨
        (-90 ≤ v.lat ∧ v.lat ≤ 90 ∧ -180 ≤ v.lon ∧ v.lon ≤ 180)) := by
  constructor
  · intro hrg
    simp only [processAisMessage]
    by_cases hm : meta.mmsi = "" ∨ meta.mmsi.length < 5
    · rw [if_pos hm]
    · rw [if_neg hm]
      by_cases hz : pr.latitude.getD 0 = 0 ∧ pr.longitude.getD 0 = 0
      · rw [if_pos hz]
      · rw [if_neg hz, if_pos hrg]
  · intro k v h
    simp only [processAisMessage] at h
    by_cases hm : meta.mmsi = "" ∨ meta.mmsi.length < 5
    · rw [if_pos hm] at h
      exact Or.inl h
    · rw [if_neg hm] at h
      by_cases hz : pr.latitude.getD 0 = 0 ∧ pr.longitude.getD 0 = 0
      · rw [if_pos hz] at h
        exact Or.inl h
      · rw [if_neg hz] at h
        by_cases hrg : -90 ≤ pr.latitude.getD 0 ∧ pr.latitude.getD 0 ≤ 90 ∧
            -180 ≤ pr.longitude.getD 0 ∧ pr.longitude.getD 0 ≤ 180
        · rw [if_neg (not_not_intro hrg)] at h
          cases hv : dictGet vessels meta.mmsi with
          | some w =>
              rw [hv] at h
              rw [dictGet_dictSet] at h
              by_cases hk : k = meta.mmsi
              · rw [if_pos hk] at h
                injection h with h
                right
                rw [← h]
                exact hrg
              · rw [if_neg hk] at h
                exact Or.inl h
          | none =>
              rw [hv] at h
              by_cases hcap : vessels.length < MAX_VESSELS
              · rw [if_pos hcap] at h
                rw [dictGet_dictSet] at h
                by_cases hk : k = meta.mmsi
                · rw [if_pos hk] at h
                  injection h with h
                  right
                  rw [← h]
                  exact hrg
                · rw [if_neg hk] at h
                  exact Or.inl h
              · rw [if_neg hcap] at h
                exact Or.inl h
        · rw [if_pos hrg] at h
          exact Or.inl h

/-- Witness for C4 (amended): an out-of-range report (latitude 95) is
dropped without effect. -/
theorem position_reports_respect_bounds_witness :
    processAisMessage flag0 type0 5 stV
        (.positionReport metaV ⟨some 95, some 10, none, none, none⟩) = stV :=
  (position_reports_respect_bounds flag0 type0 5 stV metaV
    ⟨some 95, some 10, none, none, none⟩).1 (by norm_num)

/-- C4 counterexample: processing a ShipStaticData message whose MetaData
position is latitude 95 (out of range) against an empty registry creates an
entry at latitude 95: the static-data creation path (lines 429-446) checks
only that the position is not (0, 0), never the geographic bounds, so the
registry does not keep every entity within valid bounds. -/
theorem bounds_counterexample :
    (dictGet (processAisMessage flag0 type0 0 []
        (.shipStaticData metaBad sdBad)) "123456789").map (fun v => v.lat) =
      some 95 ∧ ¬ ((95 : ℚ) ≤ 90) := by
  constructor
  · norm_num [processAisMessage, metaBad, sdBad, dictGet, dictSet, flag0,
      type0, MAX_VESSELS]
  · norm_num

/-- C5 counterexample: on the 2-waypoint route of segment length 1000, a tick
of 500 units from (segment 0, progress 0.5) does not leave the cursor at
progress 1.0 — the wrap to (0, 0.0) already happens inside that same call,
because reaching the end of the last segment triggers the loop-closure branch
before `_advance_vessel` returns. -/
theorem cursor_wrap_counterexample :
    advanceVessel segDist1000 2 500 ⟨0, 1/2⟩ = ⟨0, 0⟩ ∧
      advanceVessel segDist1000 2 500 ⟨0, 1/2⟩ ≠ ⟨0, 1⟩ := by
  constructor
  · norm_num [advanceVessel, advanceLoop, segDist1000]
  · norm_num [advanceVessel, advanceLoop, segDist1000]

/-- C5 (amended): a SimulatedCursor at segment 0, progress 0.5 on a
2-waypoint route whose single segment has great-circle length 1000
(arbitrary units), advanced by one tick covering exactly 500 units, reaches
progress 1.0 and wraps to segment 0, progress 0.0 within that same
advancement call; the next call advances it from the route start to
progress 0.5 again. -/
theorem cursor_wrap_amended :
    advanceVessel segDist1000 2 500 ⟨0, 1/2⟩ = ⟨0, 0⟩ ∧
      advanceVessel segDist1000 2 500
          (advanceVessel segDist1000 2 500 ⟨0, 1/2⟩) = ⟨0, 1/2⟩ := by
  constructor
  · norm_num [advanceVessel, advanceLoop, segDist1000]
  · norm_num [advanceVessel, advanceLoop, segDist1000]

/-- C3 (amended): every vessel-snapshot event delivered to "vessels"
subscribers carries a type field equal to "vessel_positions": the broadcast
loop sets it explicitly, and broadcast's `setdefault` stamps the channel name
only when the field is absent, which it never is for this payload. -/
theorem vessels_event_type (nowStamp nowLoop : ℚ) (vs : List VesselPosition) :
    dictGet (stampPayload nowStamp "vessels" (broadcastLoopPayload nowLoop vs))
      "type" = some (.str "vessel_positions") := rfl

/-- C3 counterexample: for a non-empty snapshot (which passes the
`if vessels:` guard of the broadcast loop, line 775, and so is actually
delivered), the vessel-snapshot payload sent through `broadcast("vessels",
...)` has type "vessel_positions", not "vessels" as claimed from the
wire-protocol section. -/
theorem vessels_event_type_counterexample :
    dictGet (stampPayload 0 "vessels" (broadcastLoopPayload 0 [v0]))
        "type" = some (.str "vessel_positions") ∧
      dictGet (stampPayload 0 "vessels" (broadcastLoopPayload 0 [v0]))
        "type" ≠ some (.str "vessels") := by
  constructor
  · rfl
  · intro hcontra
    rw [show dictGet (stampPayload 0 "vessels" (broadcastLoopPayload 0 [v0]))
        "type" = some (.str "vessel_positions") from rfl] at hcontra
    injection hcontra with hcontra
    injection hcontra with hcontra
    exact absurd hcontra (by decide)

end VesselTracker

end GEFO
